import Mathlib

/-!
Verification development for the retrieval-and-ranking core of a
legal-research backend.  The Lean definitions below are shallow embeddings
of the Python source files:

* `backend/document_processing/chunker.py` (text chunking loop),
* `backend/vector_search/vector_store.py` (index client: add / search / delete),
* `backend/vector_search/retrieval.py` (search pipeline and context expansion),
* `backend/legal_services/case_ranking.py` (multi-factor case ranking).

Python floats are modelled by `ℚ`, Python strings by `String` or `List Char`,
Python exceptions by `Except`/`Option`, and external collaborators (vector
index, object storage, metadata store) by explicit function parameters.
-/

namespace HackTheLaw

/-! ### Python-style string helpers -/

/-- Does `needle` occur at the head of `hay`?  (`str.startswith`.) -/
def listStartsWith : List Char → List Char → Bool
  | _, [] => true
  | [], _ :: _ => false
  | h :: hs, n :: ns => h == n && listStartsWith hs ns

/-- Does `needle` occur as a contiguous substring of `hay`?
Models Python's `needle in hay` for strings. -/
def listHasSub (hay needle : List Char) : Bool :=
  match hay with
  | [] => needle.isEmpty
  | _ :: t => listStartsWith hay needle || listHasSub t needle

/-- `needle in hay` on `String`. -/
def strHasSub (hay needle : String) : Bool :=
  listHasSub hay.toList needle.toList

/-- Python `str.lower()` (ASCII case folding, which covers all text the
backend manipulates). -/
def pyLower (l : List Char) : List Char :=
  l.map Char.toLower

/-- Python whitespace class `\s` restricted to ASCII
(space, tab, newline, carriage return, form feed, vertical tab). -/
def isPySpace (c : Char) : Bool :=
  c == ' ' || c == '\t' || c == '\n' || c == '\r' || c == '\x0c' || c == '\x0b'

/-- ASCII decimal digit (`\d`). -/
def isPyDigit (c : Char) : Bool :=
  '0' ≤ c && c ≤ '9'

/-- Lowercase ASCII letter (the `[a-z]` class used by the ranking regexes). -/
def isLowerAZ (c : Char) : Bool :=
  'a' ≤ c && c ≤ 'z'

/-- Python word character `\w` restricted to ASCII: letters, digits, underscore. -/
def isPyWord (c : Char) : Bool :=
  ('a' ≤ c && c ≤ 'z') || ('A' ≤ c && c ≤ 'Z') || isPyDigit c || c == '_'

/-! ### Python's stable `list.sort`

CPython's `list.sort(key=k)` is a stable sort; `reverse=True` inverts the
comparison but keeps equal-key elements in their original relative order.
We model it by a stable insertion sort parameterised by a strict test
`later x y = true` meaning "`x` must be placed strictly after `y`";
for a stable ascending sort by key `k` take `later x y := k y < k x`,
for a stable descending sort (`reverse=True`) take `later x y := k x < k y`.
-/

/-- Insert `x` into `l`, walking past exactly the elements `x` must follow.
When `later x y` never holds between equal keys, an element is inserted
after every equal-key element already present, which is what stability of
the original order means for insertion sort. -/
def stIns (later : α → α → Bool) (x : α) : List α → List α
  | [] => [x]
  | y :: ys => if later x y then y :: stIns later x ys else x :: y :: ys

/-- Stable insertion sort modelling CPython's stable `list.sort`. -/
def stSort (later : α → α → Bool) : List α → List α
  | [] => []
  | x :: xs => stIns later x (stSort later xs)

theorem stIns_perm (later : α → α → Bool) (x : α) (l : List α) :
    (stIns later x l).Perm (x :: l) := by
  induction l with
  | nil => simp [stIns]
  | cons y ys ih =>
    by_cases h : later x y = true
    · simp only [stIns, h, if_pos]
      exact ((ih.cons y).trans (List.Perm.swap x y ys))
    · simp only [stIns, h, if_neg]
      simp

theorem stSort_perm (later : α → α → Bool) (l : List α) :
    (stSort later l).Perm l := by
  induction l with
  | nil => simp [stSort]
  | cons x xs ih =>
    exact (stIns_perm later x (stSort later xs)).trans (ih.cons x)

theorem mem_stIns {later : α → α → Bool} {x a : α} {l : List α} :
    a ∈ stIns later x l ↔ a = x ∨ a ∈ l := by
  rw [(stIns_perm later x l).mem_iff]
  simp

theorem mem_stSort {later : α → α → Bool} {a : α} {l : List α} :
    a ∈ stSort later l ↔ a ∈ l :=
  (stSort_perm later l).mem_iff

theorem stIns_pairwise {later : α → α → Bool} {R : α → α → Prop}
    (hcompl : ∀ a b, later a b = false → R a b)
    (hflip : ∀ a b, later a b = true → R b a)
    (hchain : ∀ a b c, later a b = false → R b c → R a c)
    {x : α} {l : List α} (hl : l.Pairwise R) :
    (stIns later x l).Pairwise R := by
  induction l with
  | nil => simp [stIns]
  | cons y ys ih =>
    rcases List.pairwise_cons.mp hl with ⟨hy, hys⟩
    by_cases h : later x y = true
    · simp only [stIns, h, if_pos]
      refine List.pairwise_cons.mpr ⟨?_, ih hys⟩
      intro z hz
      rcases mem_stIns.mp hz with hzx | hz
      · rw [hzx]; exact hflip x y h
      · exact hy z hz
    · simp only [stIns, h, if_neg]
      refine List.pairwise_cons.mpr ⟨?_, hl⟩
      intro z hz
      rcases List.mem_cons.mp hz with rfl | hz
      · exact hcompl x z (by simpa using h)
      · exact hchain x y z (by simpa using h) (hy z hz)

theorem stSort_pairwise {later : α → α → Bool} {R : α → α → Prop}
    (hcompl : ∀ a b, later a b = false → R a b)
    (hflip : ∀ a b, later a b = true → R b a)
    (hchain : ∀ a b c, later a b = false → R b c → R a c)
    (l : List α) :
    (stSort later l).Pairwise R := by
  induction l with
  | nil => simp [stSort]
  | cons x xs ih =>
    exact stIns_pairwise hcompl hflip hchain ih

theorem stIns_filter_neg {later : α → α → Bool} {p : α → Bool} {x : α}
    (hx : p x = false) (l : List α) :
    (stIns later x l).filter p = l.filter p := by
  induction l with
  | nil => simp [stIns, List.filter, hx]
  | cons y ys ih =>
    by_cases h : later x y = true
    · simp only [stIns, h, if_pos, List.filter]
      cases hpy : p y <;> simp [ih]
    · simp only [stIns, h, if_neg, List.filter, hx]

theorem stIns_filter_pos {later : α → α → Bool} {p : α → Bool} {x : α}
    (hx : p x = true) {l : List α}
    (hpass : ∀ y ∈ l, later x y = true → p y = false) :
    (stIns later x l).filter p = x :: l.filter p := by
  induction l with
  | nil => simp [stIns, List.filter, hx]
  | cons y ys ih =>
    by_cases h : later x y = true
    · have hpy : p y = false := hpass y (List.mem_cons_self y ys) h
      simp only [stIns, h, if_pos, List.filter, hpy]
      exact ih (fun z hz hlz => hpass z (List.mem_cons_of_mem y hz) hlz)
    · simp only [stIns, h, if_neg, List.filter, hx]

/-- Stability of `stSort`, expressed as commutation with filtering by any
key value: elements sharing one key keep their input order.  The hypothesis
says the strict test never separates equal-key elements. -/
theorem stSort_filter_stable {later : α → α → Bool} {key : α → κ}
    [DecidableEq κ]
    (hk : ∀ a b, later a b = true → key a ≠ key b)
    (l : List α) (s : κ) :
    (stSort later l).filter (fun a => key a = s)
      = l.filter (fun a => key a = s) := by
  induction l with
  | nil => simp [stSort]
  | cons x xs ih =>
    by_cases hx : key x = s
    · have : (stIns later x (stSort later xs)).filter (fun a => decide (key a = s))
          = x :: (stSort later xs).filter (fun a => decide (key a = s)) := by
        refine stIns_filter_pos (by simp [hx]) ?_
        intro y _ hlater
        have := hk x y hlater
        simp only [decide_eq_false_iff_not]
        intro hys
        exact this (by rw [hx, hys])
      simpa [stSort, this, hx] using ih
    · have : (stIns later x (stSort later xs)).filter (fun a => decide (key a = s))
          = (stSort later xs).filter (fun a => decide (key a = s)) :=
        stIns_filter_neg (by simp [hx]) _
      simpa [stSort, this, hx] using ih

theorem stSort_length (later : α → α → Bool) (l : List α) :
    (stSort later l).length = l.length :=
  (stSort_perm later l).length_eq

/-! ### Index client: `backend/vector_search/vector_store.py`

External effects are made explicit: the outcome of the stream upsert
(`index.upsert_datapoints`), of the object-storage upload
(`bucket.blob(...).upload_from_string`), and of datapoint removal
(`index.remove_datapoints`) are parameters of type `Except String _`,
an `Except.error e` standing for a raised exception with message `e`.
-/

/-- The error-message fragment that `add_vectors` and `delete_vectors`
pattern-match to detect an index that only supports batch updates
(`"StreamUpdate is not enabled" in str(error)`). -/
def streamDisabledSignal : String := "StreamUpdate is not enabled"

/-- A metadata value as handled by `_batch_update`'s restrict-conversion
loop: Python `None`, a string, or a list of strings. -/
inductive MetaVal where
  | null
  | str (s : String)
  | strs (l : List String)
deriving DecidableEq, Repr

/-- One entry of a Vertex `restricts` list; the JSON keys are
`"namespace"` (here `nspace`, since `namespace` is a Lean keyword) and
`"allow_list"`. -/
structure Restrict where
  nspace : String
  allow_list : List String
deriving DecidableEq, Repr

/-- The restrict-conversion loop inside `_batch_update` (lines 133-146):
skip `None` and `""` values, listify scalars, drop falsy list members,
and keep a `{namespace, allow_list}` entry only when values remain. -/
def batchRestrictsOf (meta : List (String × MetaVal)) : List Restrict :=
  meta.filterMap fun kv =>
    match kv.2 with
    | MetaVal.null => Option.none
    | MetaVal.str s => if s = "" then Option.none else some ⟨kv.1, [s]⟩
    | MetaVal.strs l =>
      let vals := l.filter (fun v => decide (v ≠ ""))
      if vals = [] then Option.none else some ⟨kv.1, vals⟩

/-- One entry of `vectors_data` as passed to `add_vectors`. -/
structure VecData where
  id : String
  embedding : List ℚ
  metadata : List (String × MetaVal)
deriving DecidableEq, Repr

/-- One newline-delimited JSON line staged by `_batch_update`
(`{"datapoint_id": ..., "feature_vector": ..., "restricts": ...}`;
the code omits the `restricts` key when the list is empty, modelled here
as the empty list). -/
structure BatchRecord where
  datapoint_id : String
  feature_vector : List ℚ
  restricts : List Restrict
deriving DecidableEq, Repr

/-- Serialization of one `vectors_data` entry in `_batch_update`'s loop. -/
def mkBatchRecord (d : VecData) : BatchRecord :=
  ⟨d.id, d.embedding, batchRestrictsOf d.metadata⟩

/-- `blob_name = f"vector_updates/batch_(len(vectors_data)).json"`. -/
def batchBlobName (n : Nat) : String :=
  "vector_updates/batch_" ++ toString n ++ ".json"

/-- `gcs_uri = f"gs://(bucket)/(blob_name)"`. -/
def batchGcsUri (bucket : String) (n : Nat) : String :=
  "gs://" ++ bucket ++ "/" ++ batchBlobName n

/-- The value `_batch_update` returns: `{"staged_gcs_uri": gcs_uri}`,
together with the uploaded newline-delimited records. -/
structure StagedBatch where
  staged_gcs_uri : String
  records : List BatchRecord
deriving DecidableEq, Repr

/-- `_batch_update` (lines 123-165): serialize every entry to one record,
upload the joined lines, and return the staged URI; an upload failure
propagates as an error. -/
def batchUpdate (bucket : String) (upload : Except String Unit)
    (vecs : List VecData) : Except String StagedBatch :=
  let recs := vecs.map mkBatchRecord
  match upload with
  | Except.error e => Except.error e
  | Except.ok _ => Except.ok ⟨batchGcsUri bucket vecs.length, recs⟩

/-- The two success shapes of `add_vectors`: `True` from the stream path,
or the staged-batch dict from the fallback path. -/
inductive AddOutcome where
  | streamed (ok : Bool)
  | staged (b : StagedBatch)
deriving DecidableEq, Repr

/-- `add_vectors` (lines 70-88): try the stream upsert; on the specific
"StreamUpdate is not enabled" signal fall back to `_batch_update`,
otherwise re-raise the stream error unchanged (the outer handler logs and
re-raises, leaving the error intact). -/
def addVectors (bucket : String) (upsert : Except String Unit)
    (upload : Except String Unit) (vecs : List VecData) :
    Except String AddOutcome :=
  match upsert with
  | Except.ok _ => Except.ok (AddOutcome.streamed true)
  | Except.error e =>
    if strHasSub e streamDisabledSignal then
      (batchUpdate bucket upload vecs).map AddOutcome.staged
    else
      Except.error e

/-- C2: when the stream upsert fails with the specific "stream updates
disabled" signal, `add` falls back to batch staging: it serializes every
entry (id, embedding, metadata converted to namespace/allow-list
restricts) in order, uploads the file, and returns the staged storage URI
without raising; on any other stream error, `add` raises that error
unchanged and stages nothing. -/
theorem c2_add_stream_fallback (bucket e : String) (vecs : List VecData) :
    (strHasSub e streamDisabledSignal = true →
      addVectors bucket (Except.error e) (Except.ok ()) vecs
        = Except.ok (AddOutcome.staged
            ⟨batchGcsUri bucket vecs.length, vecs.map mkBatchRecord⟩) ∧
      (vecs.map mkBatchRecord).length = vecs.length ∧
      ∀ i (hi : i < vecs.length),
        (vecs.map mkBatchRecord).get ⟨i, by simpa using hi⟩
          = ⟨vecs[i].id, vecs[i].embedding, batchRestrictsOf vecs[i].metadata⟩) ∧
    (strHasSub e streamDisabledSignal = false →
      ∀ upload, addVectors bucket (Except.error e) upload vecs
        = Except.error e) := by
  constructor
  · intro h
    refine ⟨?_, by simp, ?_⟩
    · simp [addVectors, h, batchUpdate, Except.map]
    · intro i hi
      simp [mkBatchRecord]
  · intro h upload
    simp [addVectors, h]

/-- Witness for C2 at concrete inputs: a one-entry add with the disabled
signal stages and returns the URI; a different error propagates. -/
theorem c2_add_stream_fallback_witness :
    (addVectors "bkt"
        (Except.error "FailedPrecondition: StreamUpdate is not enabled on this index")
        (Except.ok ())
        [⟨"doc_chunk_0000", [1, 0], [("legal_area", MetaVal.str "tort")]⟩]
      = Except.ok (AddOutcome.staged
          ⟨"gs://bkt/vector_updates/batch_1.json",
           [⟨"doc_chunk_0000", [1, 0], [⟨"legal_area", ["tort"]⟩]⟩]⟩)) ∧
    (addVectors "bkt" (Except.error "PermissionDenied") (Except.ok ())
        [⟨"doc_chunk_0000", [1, 0], []⟩]
      = Except.error "PermissionDenied") := by
  constructor
  · have h := (c2_add_stream_fallback "bkt"
      "FailedPrecondition: StreamUpdate is not enabled on this index"
      [⟨"doc_chunk_0000", [1, 0], [("legal_area", MetaVal.str "tort")]⟩]).1
      (by decide)
    rw [h.1]
    rfl
  · exact (c2_add_stream_fallback "bkt" "PermissionDenied"
      [⟨"doc_chunk_0000", [1, 0], []⟩]).2 (by decide) (Except.ok ())

/-- One raw neighbor from `endpoint.find_neighbors`. -/
structure Neighbor where
  datapoint_id : String
  distance : ℚ
deriving DecidableEq, Repr

/-- One parsed entry of the `search_vectors` result list. -/
structure SearchHit where
  id : String
  distance : ℚ
  similarity_score : ℚ
deriving DecidableEq, Repr

/-- The neighbor-parsing loop of `search_vectors` (lines 215-229):
`{"id": id, "distance": d, "similarity_score": max(0.0, 1.0 - d)}`
for each neighbor of the first query's response. -/
def parseNeighbors (resp : List Neighbor) : List SearchHit :=
  resp.map fun n => ⟨n.datapoint_id, n.distance, max 0 (1 - n.distance)⟩

/-- C4: for every neighbor with raw distance `d ≥ 0`, the computed
`similarity_score` equals `max 0 (1 - d)`, is never negative, and never
exceeds 1. -/
theorem c4_similarity_clamp (resp : List Neighbor) :
    ∀ hit ∈ parseNeighbors resp, 0 ≤ hit.distance →
      hit.similarity_score = max 0 (1 - hit.distance) ∧
      0 ≤ hit.similarity_score ∧ hit.similarity_score ≤ 1 := by
  intro hit hmem hd
  simp only [parseNeighbors, List.mem_map] at hmem
  obtain ⟨n, _, rfl⟩ := hmem
  refine ⟨rfl, le_max_left 0 _, ?_⟩
  have h1 : (1 : ℚ) - n.distance ≤ 1 := by linarith
  exact max_le (by norm_num) h1

/-- Witness for C4 at a concrete neighbor with distance `1/2`. -/
theorem c4_similarity_clamp_witness :
    (SearchHit.mk "doc_chunk_0000" (1/2) (max 0 (1 - 1/2))).similarity_score
        = max 0 (1 - (SearchHit.mk "doc_chunk_0000" (1/2)
            (max 0 (1 - 1/2))).distance) ∧
      0 ≤ (SearchHit.mk "doc_chunk_0000" (1/2) (max 0 (1 - 1/2))).similarity_score ∧
      (SearchHit.mk "doc_chunk_0000" (1/2) (max 0 (1 - 1/2))).similarity_score ≤ 1 :=
  c4_similarity_clamp [⟨"doc_chunk_0000", 1/2⟩]
    ⟨"doc_chunk_0000", 1/2, max 0 (1 - 1/2)⟩
    (by simp [parseNeighbors]) (by norm_num)

/-- A Python value appearing in a `vector_ids` list: a string or any
non-string value (whose exact shape is irrelevant to `delete_vectors`). -/
inductive PyVal where
  | str (s : String)
  | nonStr
deriving DecidableEq, Repr

/-- The per-id validation of `delete_vectors` (lines 254-256):
`not vector_id or not isinstance(vector_id, str)` raises `ValueError`. -/
def invalidId : PyVal → Bool
  | PyVal.str s => s = ""
  | PyVal.nonStr => true

/-- Result of `delete_vectors`: the returned boolean plus whether
`index.remove_datapoints` was actually invoked. -/
structure DeleteOutcome where
  success : Bool
  contacted : Bool
deriving DecidableEq, Repr

/-- `delete_vectors` (lines 236-274): empty input returns `True` before
any index call; an invalid id raises `ValueError`, caught by the outer
handler which returns `False`; a removal failure returns `False` either
via the explicit stream-disabled branch or via re-raise into the outer
handler. -/
def deleteVectors (removeRes : Except String Unit) (ids : List PyVal) :
    DeleteOutcome :=
  if ids = [] then ⟨true, false⟩
  else if ids.any invalidId then ⟨false, false⟩
  else
    match removeRes with
    | Except.ok _ => ⟨true, true⟩
    | Except.error e =>
      if strHasSub e streamDisabledSignal then ⟨false, true⟩
      else ⟨false, true⟩

/-- C10: `delete` is total — it always returns a boolean (its Lean return
type is exception-free by construction): the empty list yields `True`
without contacting the index, a list with an empty or non-string id yields
`False`, and any index-side failure (the stream-disabled signal included)
yields `False` rather than an exception. -/
theorem c10_delete_total (removeRes : Except String Unit) (ids : List PyVal) :
    (ids = [] → deleteVectors removeRes ids = ⟨true, false⟩) ∧
    (ids.any invalidId = true →
      deleteVectors removeRes ids = ⟨false, false⟩) ∧
    (∀ e, removeRes = Except.error e → ids ≠ [] → ids.any invalidId = false →
      deleteVectors removeRes ids = ⟨false, true⟩) := by
  refine ⟨?_, ?_, ?_⟩
  · intro h; simp [deleteVectors, h]
  · intro h
    have hne : ¬ ids = [] := by
      intro h0; rw [h0] at h; simp at h
    simp [deleteVectors, hne, h]
  · intro e hrem hne h
    subst hrem
    by_cases hsig : strHasSub e streamDisabledSignal = true <;>
      simp [deleteVectors, hne, h, hsig]

/-- Witness for C10: the three branches at concrete inputs — empty list,
a list containing an empty id, and a valid id with a failing removal. -/
theorem c10_delete_total_witness :
    (deleteVectors (Except.ok ()) [] = ⟨true, false⟩) ∧
    (deleteVectors (Except.ok ()) [PyVal.str ""] = ⟨false, false⟩) ∧
    (deleteVectors (Except.error "StreamUpdate is not enabled")
        [PyVal.str "doc_chunk_0000"] = ⟨false, true⟩) :=
  ⟨(c10_delete_total (Except.ok ()) []).1 rfl,
   (c10_delete_total (Except.ok ()) [PyVal.str ""]).2.1 (by decide),
   (c10_delete_total (Except.error "StreamUpdate is not enabled")
      [PyVal.str "doc_chunk_0000"]).2.2 "StreamUpdate is not enabled"
      rfl (by decide) (by decide)⟩

/-! ### Chunker: `backend/document_processing/chunker.py`

Python string indices are `Int` (they may go negative in this code:
`start = end - self.chunk_overlap` can drop below zero), strings are
`List Char`, and Python slice semantics (negative indices count from the
end, out-of-range indices clamp) are modelled by `pySlice`. -/

/-- Effective bound of a Python slice index `i` on a string of length `n`. -/
def pyIdx (n : Nat) (i : Int) : Nat :=
  if i < 0 then (max 0 ((n : Int) + i)).toNat else (min i (n : Int)).toNat

/-- Python slice `l[a:b]`. -/
def pySlice (l : List Char) (a b : Int) : List Char :=
  (l.take (pyIdx l.length b)).drop (pyIdx l.length a)

/-- Python `str.strip()` (ASCII whitespace). -/
def pyStrip (l : List Char) : List Char :=
  ((l.dropWhile isPySpace).reverse.dropWhile isPySpace).reverse

/-- Python `str.rfind(c)`: index of the last occurrence of `c`, `-1` if
absent. -/
def lastIdxOf (l : List Char) (c : Char) : Int :=
  (l.foldl
    (fun (st : Int × Int) ch => (st.1 + 1, if ch == c then st.1 else st.2))
    (0, -1)).2

/-- `re.sub(r'\s+', ' ', text)`: collapse every maximal whitespace run to a
single space.  The flag records whether the previous character was part of
a run already emitted. -/
def collapseWsAux (inRun : Bool) : List Char → List Char
  | [] => []
  | c :: rest =>
    if isPySpace c then
      if inRun then collapseWsAux true rest
      else ' ' :: collapseWsAux true rest
    else c :: collapseWsAux false rest

def collapseWs (l : List Char) : List Char :=
  collapseWsAux false l

/-- Length of a `--- Page \d+ ---` marker starting at the head of `l`,
if one matches (always at least 14: nine header characters, one or more
digits, four trailer characters). -/
def markerLen (l : List Char) : Option Nat :=
  if listStartsWith l ("--- Page ".toList) then
    let after := l.drop 9
    let ds := after.takeWhile isPyDigit
    if ds.isEmpty then Option.none
    else if listStartsWith (after.drop ds.length) (" ---".toList) then
      some (9 + ds.length + 4)
    else Option.none
  else Option.none

/-- `re.sub(r'--- Page \d+ ---', '', text)`: delete every non-overlapping
page-break marker, scanning left to right.  (`markerLen` never returns a
value below 14, so dropping `k - 1` characters of the tail is exactly
dropping `k` characters of the whole list.) -/
def stripMarkers : List Char → List Char
  | [] => []
  | c :: rest =>
    match markerLen (c :: rest) with
    | some k => stripMarkers (rest.drop (k - 1))
    | Option.none => c :: stripMarkers rest
termination_by l => l.length
decreasing_by
  · simp only [List.length_cons, List.length_drop]
    omega
  · simp only [List.length_cons]
    omega

/-- The quote-normalisation `replace` chain of `_clean_text`
(curly double quotes U+201C/U+201D to `"`, curly single quotes
U+2018/U+2019 to `'`). -/
def replaceQuotes (l : List Char) : List Char :=
  l.map fun c =>
    if c = Char.ofNat 0x201C ∨ c = Char.ofNat 0x201D then Char.ofNat 34
    else if c = Char.ofNat 0x2018 ∨ c = Char.ofNat 0x2019 then Char.ofNat 39
    else c

/-- `_clean_text` (lines 111-120): collapse whitespace, remove page
markers, normalise quotes, strip. -/
def cleanText (text : List Char) : List Char :=
  pyStrip (replaceQuotes (stripMarkers (collapseWs text)))

/-- `_find_sentence_boundary` (lines 145-166): look over the last 100
characters before `position` for the rightmost sentence-ending character;
cut just after it when it is followed by a space, otherwise keep
`position`. -/
def findSentenceBoundary (text : List Char) (position : Int) : Int :=
  let searchStart : Int := max 0 (position - 100)
  let searchText := pySlice text searchStart position
  let lastEnding : Int :=
    ['.', '!', '?', ':', ';'].foldl
      (fun acc e => max acc (lastIdxOf searchText e)) (-1)
  if lastEnding > 0 then
    if lastEnding < (searchText.length : Int) - 1 ∧
        searchText.get? (lastEnding + 1).toNat = some ' ' then
      searchStart + lastEnding + 1
    else position
  else position

/-- Zero-padded formatting `f"(i:04d)"` for a natural chunk index. -/
def pad4 (i : Nat) : String :=
  let s := toString i
  if s.length < 4 then String.mk (List.replicate (4 - s.length) '0') ++ s
  else s

/-- `chunk_id = f"(document_id)_chunk_(chunk_index:04d)"`. -/
def mkChunkId (docId : String) (i : Nat) : String :=
  docId ++ "_chunk_" ++ pad4 i

/-- A chunk as built by `chunk_document`'s loop.  `page_number` and
`section_title` are filled in by the side lookups `_find_page_number` and
`_find_section_title`, which read the loop's `start` value but never
influence control flow or termination; they are omitted here. -/
structure TextChunk where
  text : List Char
  chunk_id : String
  document_id : String
  chunk_index : Nat
  start_char : Int
  end_char : Int
deriving DecidableEq, Repr

/-- The `while start < len(cleaned_text)` loop of `chunk_document`
(lines 65-102), with an explicit fuel bound: `none` means the given fuel
was exhausted without the loop terminating.  Mirrors the source
line-by-line: window end clamped to the text length, sentence-boundary
adjustment only when the window falls short of the end, empty-after-strip
chunks skipped, `start = end - overlap`, and exit only on
`start >= len(cleaned_text)` (checked at the bottom and at the top). -/
def chunkLoop (chunkSize chunkOverlap : Int) (docId : String)
    (text : List Char) :
    Nat → Int → Nat → List TextChunk → Option (List TextChunk)
  | 0, _, _, _ => Option.none
  | fuel + 1, start, idx, acc =>
    if start < (text.length : Int) then
      let e0 : Int := min (start + chunkSize) text.length
      let e : Int :=
        if e0 < (text.length : Int) then findSentenceBoundary text e0 else e0
      let ctext := pyStrip (pySlice text start e)
      let acc' :=
        if ctext = [] then acc
        else acc ++ [⟨ctext, mkChunkId docId idx, docId, idx, start, e⟩]
      let idx' := if ctext = [] then idx else idx + 1
      let start' := e - chunkOverlap
      if start' ≥ (text.length : Int) then some acc'
      else chunkLoop chunkSize chunkOverlap docId text fuel start' idx' acc'
    else some acc

/-- `chunk_document` (lines 42-109) up to the omitted page/section side
lookups: clean the text, then run the chunking loop from `start = 0` with
the given fuel. -/
def chunkDocumentFuel (chunkSize chunkOverlap : Int) (docId : String)
    (text : List Char) (fuel : Nat) : Option (List TextChunk) :=
  chunkLoop chunkSize chunkOverlap docId (cleanText text) fuel 0 0 []

/-- The cleaned form of the C1 failing input is the input itself. -/
theorem cleanText_aaa : cleanText ("aaa".toList) = "aaa".toList := by
  simp [cleanText, collapseWs, collapseWsAux, isPySpace, stripMarkers,
    markerLen, listStartsWith, replaceQuotes, pyStrip, List.dropWhile]

/-- Once `start` reaches `-197` on the 3-character input, one loop
iteration appends a chunk and returns to `start = -197`: with the default
configuration (`chunk_size = 1000`, `overlap = 200`) the window end is the
text length 3, so the loop's two exits (`start < len` false, or
`start = end - overlap ≥ len`) are both unreachable. -/
theorem c1_chunk_loop_stuck (n : Nat) (idx : Nat) (acc : List TextChunk) :
    chunkLoop 1000 200 "doc" ("aaa".toList) (n + 1) (-197) idx acc
      = chunkLoop 1000 200 "doc" ("aaa".toList) n (-197) (idx + 1)
          (acc ++ [⟨"aaa".toList, mkChunkId "doc" idx, "doc", idx, -197, 3⟩]) :=
  rfl

/-- C1 (refuted; the code, not the claim, is at fault): on the default
configuration `chunk_size = 1000`, `overlap = 200` and the plain
3-character document `"aaa"`, the chunking loop of `chunk_document` never
terminates — no fuel bound suffices.  After the first iteration
`start = 3 - 200 = -197 < 3`, and every later iteration recomputes
`end = 3` and `start = -197`, appending the same text as a fresh chunk
forever; `start >= len(cleaned_text)` can never hold once `end == len`
and `overlap > 0`.  (The overlap clamp the spec describes lives in
`app.py`'s separate `_create_text_chunks` path, not in
`chunk_document`.) -/
theorem c1_chunk_document_diverges :
    ∀ fuel : Nat, chunkDocumentFuel 1000 200 "doc" ("aaa".toList) fuel
      = Option.none := by
  have key : ∀ (n : Nat) (idx : Nat) (acc : List TextChunk),
      chunkLoop 1000 200 "doc" ("aaa".toList) n (-197) idx acc
        = Option.none := by
    intro n
    induction n with
    | zero => intro idx acc; rfl
    | succ m ih =>
      intro idx acc
      rw [c1_chunk_loop_stuck]
      exact ih _ _
  intro fuel
  unfold chunkDocumentFuel
  rw [cleanText_aaa]
  cases fuel with
  | zero => rfl
  | succ m =>
    have first : chunkLoop 1000 200 "doc" ("aaa".toList) (m + 1) 0 0 []
        = chunkLoop 1000 200 "doc" ("aaa".toList) m (-197) 1
            [⟨"aaa".toList, mkChunkId "doc" 0, "doc", 0, 0, 3⟩] := rfl
    rw [first]
    exact key m _ _

/-! ### Retrieval service: `backend/vector_search/retrieval.py`

The Firestore metadata store is a function `String → Option ChunkMeta`
(`None` for a missing `textbook_chunks` document); the embedding service
and the raw vector query are upstream of the fragment the claims are
about, so `search_textbooks`'s post-query pipeline takes the vector
results directly. -/

/-- A `textbook_chunks` document, with the `.get(...)` defaults of
`_enrich_with_metadata` folded in. -/
structure ChunkMeta where
  text : String
  document_id : String
  page_number : Nat
  chunk_index : Nat
  section_title : String
deriving DecidableEq, Repr

/-- One enriched search result as assembled by `_enrich_with_metadata`. -/
structure EnrichedHit where
  chunk_id : String
  similarity_score : ℚ
  distance : ℚ
  text : String
  document_id : String
  page_number : Nat
  chunk_index : Nat
  section_title : String
deriving DecidableEq, Repr

/-- `_enrich_with_metadata` (lines 81-125): look every hit up in the
metadata store; a missing record (or a per-hit lookup failure) drops that
hit and continues. -/
def enrichHits (store : String → Option ChunkMeta) (hits : List SearchHit) :
    List EnrichedHit :=
  hits.filterMap fun r =>
    (store r.id).map fun m =>
      ⟨r.id, r.similarity_score, r.distance, m.text, m.document_id,
       m.page_number, m.chunk_index, m.section_title⟩

/-- The comparison of `enriched_results.sort(key=lambda x:
x['similarity_score'], reverse=True)`: `x` goes strictly after `y` iff
`x` has the smaller score. -/
def simLater (x y : EnrichedHit) : Bool :=
  decide (x.similarity_score < y.similarity_score)

/-- The post-query pipeline of `search_textbooks` (lines 58-75): threshold
filter, metadata hydration, then a stable sort by `similarity_score`
descending.  (The source's early `return []` on an empty intermediate list
equals running the remaining stages on the empty list.) -/
def searchCore (threshold : ℚ) (store : String → Option ChunkMeta)
    (vecResults : List SearchHit) : List EnrichedHit :=
  stSort simLater
    (enrichHits store
      (vecResults.filter fun r => decide (threshold ≤ r.similarity_score)))

/-- Placeholder hit used only as the `getD` default in index-based
statements. -/
def noHit : EnrichedHit := ⟨"", 0, 0, "", "", 0, 0, ""⟩

/-- Largest similarity score among the members of one document's group
(0 when the document has no member). -/
def maxSimOfDoc (l : List EnrichedHit) (d : String) : ℚ :=
  ((l.filter fun r => r.document_id == d).map
    (fun r => r.similarity_score)).foldr max 0

/-- The C3 claim, stated from the spec's words: the result list is grouped
by `document_id` (each document's matches contiguous), each group is
sorted by `chunk_index` ascending, and groups are ordered by their maximum
`similarity_score` descending. -/
def GroupedResult (l : List EnrichedHit) : Prop :=
  (∀ i j k, i < j → j < k → k < l.length →
    (l.getD i noHit).document_id = (l.getD k noHit).document_id →
    (l.getD j noHit).document_id = (l.getD i noHit).document_id) ∧
  (∀ i j, i < j → j < l.length →
    (l.getD i noHit).document_id = (l.getD j noHit).document_id →
    (l.getD i noHit).chunk_index ≤ (l.getD j noHit).chunk_index) ∧
  (∀ i j, i < j → j < l.length →
    (l.getD i noHit).document_id ≠ (l.getD j noHit).document_id →
    maxSimOfDoc l ((l.getD j noHit).document_id)
      ≤ maxSimOfDoc l ((l.getD i noHit).document_id))

/-- Concrete metadata store for the C3 counterexample: document `A` owns
chunks 2 and 5, document `B` owns chunk 1. -/
def storeC3 : String → Option ChunkMeta := fun s =>
  if s = "A_chunk_0005" then some ⟨"tA5", "A", 1, 5, ""⟩
  else if s = "B_chunk_0001" then some ⟨"tB1", "B", 1, 1, ""⟩
  else if s = "A_chunk_0002" then some ⟨"tA2", "A", 1, 2, ""⟩
  else Option.none

/-- Concrete vector results for the C3 counterexample, with similarity
scores 3 > 2 > 1 interleaving the two documents. -/
def hitsC3 : List SearchHit :=
  [⟨"A_chunk_0005", 0, 3⟩, ⟨"B_chunk_0001", 0, 2⟩, ⟨"A_chunk_0002", 0, 1⟩]

theorem searchCore_c3_eval :
    searchCore 0 storeC3 hitsC3 =
      [⟨"A_chunk_0005", 3, 0, "tA5", "A", 1, 5, ""⟩,
       ⟨"B_chunk_0001", 2, 0, "tB1", "B", 1, 1, ""⟩,
       ⟨"A_chunk_0002", 1, 0, "tA2", "A", 1, 2, ""⟩] := by
  norm_num [searchCore, hitsC3, storeC3, enrichHits, stSort, stIns, simLater,
    List.filter, List.filterMap]

/-- C3 (refuted): the search result is not grouped by `document_id` —
on a query whose hits interleave two documents, the code's single
descending sort by `similarity_score` leaves document `A`'s matches
non-contiguous around document `B`'s match. -/
theorem c3_grouping_counterexample :
    ¬ GroupedResult (searchCore 0 storeC3 hitsC3) := by
  rw [searchCore_c3_eval]
  intro h
  have h1 := h.1 0 1 2 (by norm_num) (by norm_num) (by norm_num) (by simp)
  simp [noHit] at h1

/-- C3 as amended: the surviving, hydrated hits are returned as one flat
list stably sorted by `similarity_score` descending (no grouping by
`document_id` is applied): the output is pairwise non-increasing in score,
is a permutation of the hydrated above-threshold hits, and every returned
hit meets the threshold. -/
theorem c3_flat_sorted_by_similarity (threshold : ℚ)
    (store : String → Option ChunkMeta) (vecResults : List SearchHit) :
    (searchCore threshold store vecResults).Pairwise
      (fun a b => b.similarity_score ≤ a.similarity_score) ∧
    (searchCore threshold store vecResults).Perm
      (enrichHits store
        (vecResults.filter fun r => decide (threshold ≤ r.similarity_score))) ∧
    (∀ r ∈ searchCore threshold store vecResults,
      threshold ≤ r.similarity_score) := by
  refine ⟨?_, stSort_perm _ _, ?_⟩
  · refine stSort_pairwise ?_ ?_ ?_ _
    · intro a b hab
      have : ¬ (a.similarity_score < b.similarity_score) := by
        simpa [simLater] using hab
      exact le_of_not_lt this
    · intro a b hab
      have : a.similarity_score < b.similarity_score := by
        simpa [simLater] using hab
      exact le_of_lt this
    · intro a b c hab hbc
      have h1 : b.similarity_score ≤ a.similarity_score :=
        le_of_not_lt (by simpa [simLater] using hab)
      exact le_trans hbc h1
  · intro r hr
    have hr2 : r ∈ enrichHits store
        (vecResults.filter fun r => decide (threshold ≤ r.similarity_score)) :=
      mem_stSort.mp hr
    simp only [enrichHits, List.mem_filterMap] at hr2
    obtain ⟨hit, hmem, hsome⟩ := hr2
    have hthr : threshold ≤ hit.similarity_score := by
      have := List.mem_filter.mp hmem
      simpa using this.2
    obtain ⟨m, _, rfl⟩ := Option.map_eq_some'.mp hsome
    exact hthr

/-- Witness for the amended C3 at the concrete counterexample inputs:
the top returned hit meets the threshold. -/
theorem c3_flat_sorted_witness :
    (0 : ℚ) ≤ (EnrichedHit.mk "A_chunk_0005" 3 0 "tA5" "A" 1 5 "").similarity_score :=
  (c3_flat_sorted_by_similarity 0 storeC3 hitsC3).2.2
    ⟨"A_chunk_0005", 3, 0, "tA5", "A", 1, 5, ""⟩
    (by rw [searchCore_c3_eval]; simp)

/-! ### Context expansion: `get_textbook_context` (retrieval.py 127-180) -/

/-- Python `chunk_id.split('_chunk_')`: split on non-overlapping
occurrences of the 7-character separator, scanning left to right.  The
first argument counts separator characters still to skip after a match. -/
def splitCSAux : Nat → List Char → List (List Char)
  | _ + 1, [] => [[]]
  | skip + 1, _ :: rest => splitCSAux skip rest
  | 0, [] => [[]]
  | 0, c :: rest =>
    if listStartsWith (c :: rest) ("_chunk_".toList) then
      [] :: splitCSAux 6 rest
    else
      match splitCSAux 0 rest with
      | [] => [[c]]
      | h :: t => (c :: h) :: t

def splitOnChunkSep (s : String) : List (List Char) :=
  splitCSAux 0 s.toList

/-- Python `int(...)` on the digit strings produced by the chunk-id
scheme (`int` additionally accepts signs and surrounding whitespace,
which well-formed chunk-id suffixes never contain); `none` models the
`ValueError` branch. -/
def parseNatDigits (l : List Char) : Option Nat :=
  if l ≠ [] ∧ l.all isPyDigit then
    some (l.foldl (fun n c => n * 10 + (c.toNat - 48)) 0)
  else Option.none

/-- The id-parsing step of `get_textbook_context` (lines 143-151):
exactly one `_chunk_` separator, integer suffix; failures skip the id. -/
def parseChunkId (cid : String) : Option (String × Nat) :=
  match splitOnChunkSep cid with
  | [d, ix] => (parseNatDigits ix).map fun n => (String.mk d, n)
  | _ => Option.none

/-- A `textbook_chunks` document as used by context expansion, with the
sort key's `.get('document_id', '')` / `.get('chunk_index', 0)` defaults
folded in (the remaining stored fields play no role in the claim). -/
structure StoredChunk where
  document_id : String
  chunk_index : Nat
deriving DecidableEq, Repr

/-- One entry of the `context_chunks` list: the stored data plus the
`chunk_id` and `is_original` keys the code adds. -/
structure ContextChunk where
  chunk_id : String
  is_original : Bool
  data : StoredChunk
deriving DecidableEq, Repr

/-- `range(max(0, chunk_index - context_window), chunk_index +
context_window + 1)` (natural subtraction is the `max(0, ·)`). -/
def windowIdx (ci w : Nat) : List Nat :=
  List.range' (ci - w) (ci + w + 1 - (ci - w))

/-- The per-hit body of `get_textbook_context`'s loop (lines 141-167):
parse the hit id, walk the window, fetch each sibling id from the store
(missing documents and per-fetch failures are skipped), and mark
`is_original = (context_chunk_id == chunk_id)` against the hit being
processed. -/
def contextRaw (store : String → Option StoredChunk) (w : Nat)
    (cid : String) : List ContextChunk :=
  match parseChunkId cid with
  | Option.none => []
  | some (d, ci) =>
    (windowIdx ci w).filterMap fun i =>
      (store (mkChunkId d i)).map fun s =>
        ⟨mkChunkId d i, mkChunkId d i == cid, s⟩

/-- The full `context_chunks` accumulation across all hits. -/
def gatherContext (store : String → Option StoredChunk)
    (ids : List String) (w : Nat) : List ContextChunk :=
  ids.flatMap (contextRaw store w)

/-- Key order of the dict comprehension
`{chunk['chunk_id']: chunk for chunk in context_chunks}`:
first occurrence of each key. -/
def dedupKeys (l : List ContextChunk) : List String :=
  l.foldl (fun acc c => if acc.contains c.chunk_id then acc
                        else acc ++ [c.chunk_id]) []

/-- Value of the dict comprehension at key `k`: the last entry wins. -/
def lastWithKey (l : List ContextChunk) (k : String) : Option ContextChunk :=
  (l.filter fun c => c.chunk_id == k).getLast?

/-- The dict comprehension itself: keys in first-occurrence order, each
mapped to its last value. -/
def dictDedup (l : List ContextChunk) : List ContextChunk :=
  (dedupKeys l).filterMap (lastWithKey l)

/-- Code-point lexicographic comparison of character lists: Python's `<`
on strings. -/
def listLtB : List Char → List Char → Bool
  | [], [] => false
  | [], _ :: _ => true
  | _ :: _, [] => false
  | a :: as, b :: bs =>
    if a.toNat < b.toNat then true
    else if b.toNat < a.toNat then false
    else listLtB as bs

/-- Python tuple comparison on the sort key
`(x.get('document_id', ''), x.get('chunk_index', 0))`. -/
def keyLtB (x y : String × Nat) : Bool :=
  listLtB x.1.toList y.1.toList || (x.1 == y.1 && decide (x.2 < y.2))

def ctxKey (c : ContextChunk) : String × Nat :=
  (c.data.document_id, c.data.chunk_index)

/-- Comparison of `sorted(..., key=lambda x: (document_id, chunk_index))`:
`x` goes strictly after `y` iff `y`'s key is strictly smaller. -/
def ctxLater (x y : ContextChunk) : Bool :=
  keyLtB (ctxKey y) (ctxKey x)

/-- `get_textbook_context` (lines 127-180): gather the window entries per
hit, deduplicate by `chunk_id` (dict semantics), and stably sort by
`(document_id, chunk_index)`. -/
def getTextbookContext (store : String → Option StoredChunk)
    (ids : List String) (w : Nat) : List ContextChunk :=
  stSort ctxLater (dictDedup (gatherContext store ids w))

/-- Does the window of hit id `h` cover the chunk id `c`? -/
def coversB (w : Nat) (h c : String) : Bool :=
  match parseChunkId h with
  | some (d, ci) => (windowIdx ci w).any fun i => mkChunkId d i == c
  | Option.none => false

/-- The last input hit (in input order) whose window covers chunk id `c`. -/
def lastCover (ids : List String) (w : Nat) (c : String) : Option String :=
  (ids.filter fun h => coversB w h c).getLast?

/-- Concrete metadata store for the C8 counterexample: document `A` owns
chunks 0-4. -/
def storeC8 : String → Option StoredChunk := fun s =>
  if s = "A_chunk_0000" then some ⟨"A", 0⟩
  else if s = "A_chunk_0001" then some ⟨"A", 1⟩
  else if s = "A_chunk_0002" then some ⟨"A", 2⟩
  else if s = "A_chunk_0003" then some ⟨"A", 3⟩
  else if s = "A_chunk_0004" then some ⟨"A", 4⟩
  else Option.none

/-- C8 (refuted): a returned chunk is not marked as the original hit
exactly when its id is an input id.  With hits `A_chunk_0001` and
`A_chunk_0002` and window 2, the second hit's window re-visits chunk 1
with `is_original = False`, and the dict comprehension keeps that last
record, so the returned `A_chunk_0001` — an input hit — carries
`is_original = False`. -/
theorem c8_original_mark_counterexample :
    ¬ (∀ r ∈ getTextbookContext storeC8 ["A_chunk_0001", "A_chunk_0002"] 2,
        (r.is_original = true ↔
          r.chunk_id ∈ ["A_chunk_0001", "A_chunk_0002"])) := by
  decide

theorem listLtB_irrefl : ∀ a, listLtB a a = false
  | [] => rfl
  | a :: as => by simp [listLtB, listLtB_irrefl as]

theorem listLtB_asymm : ∀ a b, listLtB a b = true → listLtB b a = false
  | [], [] => by simp [listLtB]
  | [], _ :: _ => by simp [listLtB]
  | _ :: _, [] => by simp [listLtB]
  | a :: as, b :: bs => by
    simp only [listLtB]
    rcases Nat.lt_trichotomy a.toNat b.toNat with h | h | h
    · intro _
      simp [h, Nat.lt_asymm h]
    · simp only [h, lt_irrefl, if_false]
      exact listLtB_asymm as bs
    · simp [h, Nat.lt_asymm h]

theorem listLtB_eq_of_not : ∀ a b, listLtB a b = false → listLtB b a = false →
    a = b
  | [], [], _, _ => rfl
  | [], _ :: _, h1, _ => by simp [listLtB] at h1
  | _ :: _, [], _, h2 => by simp [listLtB] at h2
  | a :: as, b :: bs, h1, h2 => by
    rcases Nat.lt_trichotomy a.toNat b.toNat with h | h | h
    · simp [listLtB, h] at h1
    · have hc : a = b := Char.eq_of_val_eq (UInt32.ext h)
      subst hc
      simp only [listLtB, lt_irrefl, if_false] at h1 h2
      rw [listLtB_eq_of_not as bs h1 h2]
    · simp [listLtB, h, Nat.lt_asymm h] at h2

theorem listLtB_cotrans : ∀ a b c, listLtB a c = true →
    listLtB a b = true ∨ listLtB b c = true
  | [], b, c, h => by
    cases b with
    | nil => exact Or.inr h
    | cons x xs => exact Or.inl (by simp [listLtB])
  | _ :: _, _, [], h => by simp [listLtB] at h
  | a :: as, [], c :: cs, _ => Or.inr (by simp [listLtB])
  | a :: as, b :: bs, c :: cs, h => by
    rcases Nat.lt_trichotomy a.toNat b.toNat with hab | hab | hab
    · exact Or.inl (by simp [listLtB, hab])
    · have hc : a = b := Char.eq_of_val_eq (UInt32.ext hab)
      subst hc
      rcases Nat.lt_trichotomy a.toNat c.toNat with hac | hac | hac
      · exact Or.inr (by simp [listLtB, hac])
      · have hc2 : a = c := Char.eq_of_val_eq (UInt32.ext hac)
        subst hc2
        simp only [listLtB, lt_irrefl, if_false] at h
        rcases listLtB_cotrans as bs cs h with h1 | h1
        · exact Or.inl (by simp [listLtB, h1])
        · exact Or.inr (by simp [listLtB, h1])
      · simp [listLtB, hac, Nat.lt_asymm hac] at h
    · rcases Nat.lt_trichotomy a.toNat c.toNat with hac | hac | hac
      · exact Or.inr (by simp [listLtB]; omega)
      · exact Or.inr (by simp [listLtB]; omega)
      · simp [listLtB, hac, Nat.lt_asymm hac] at h

theorem str_eq_iff_toList {s t : String} : s = t ↔ s.toList = t.toList :=
  ⟨fun h => by rw [h], String.ext⟩

theorem keyLtB_asymm {x y : String × Nat} (h : keyLtB x y = true) :
    keyLtB y x = false := by
  simp only [keyLtB, Bool.or_eq_true, Bool.and_eq_true, beq_iff_eq,
    decide_eq_true_eq] at h
  rcases h with h | ⟨he, hn⟩
  · have h1 : listLtB y.1.toList x.1.toList = false := listLtB_asymm _ _ h
    have hne : (y.1 == x.1) = false := by
      rw [beq_eq_false_iff_ne]
      intro he
      rw [str_eq_iff_toList] at he
      rw [he] at h
      simp [listLtB_irrefl] at h
    show (listLtB y.1.toList x.1.toList
      || (y.1 == x.1 && decide (y.2 < x.2))) = false
    rw [h1, hne]
    rfl
  · have h1 : listLtB y.1.toList x.1.toList = false := by
      rw [he]; exact listLtB_irrefl _
    have h2 : decide (y.2 < x.2) = false := by
      simpa using Nat.lt_asymm hn
    show (listLtB y.1.toList x.1.toList
      || (y.1 == x.1 && decide (y.2 < x.2))) = false
    rw [h1, h2]
    simp

theorem keyLtB_cotrans {x y z : String × Nat} (h : keyLtB x z = true) :
    keyLtB x y = true ∨ keyLtB y z = true := by
  simp only [keyLtB, Bool.or_eq_true, Bool.and_eq_true, beq_iff_eq,
    decide_eq_true_eq] at h ⊢
  rcases h with h | ⟨he, hn⟩
  · rcases listLtB_cotrans _ y.1.toList _ h with h1 | h1
    · exact Or.inl (Or.inl h1)
    · exact Or.inr (Or.inl h1)
  · by_cases h1 : listLtB x.1.toList y.1.toList = true
    · exact Or.inl (Or.inl h1)
    · by_cases h2 : listLtB y.1.toList z.1.toList = true
      · exact Or.inr (Or.inl h2)
      · have hyx : y.1.toList = x.1.toList := by
          apply listLtB_eq_of_not
          · have hxz : x.1.toList = z.1.toList := by rw [he]
            rw [hxz]
            exact (Bool.not_eq_true _).mp h2
          · exact (Bool.not_eq_true _).mp h1
        have hxy : x.1 = y.1 := str_eq_iff_toList.mpr hyx.symm
        rcases Nat.lt_or_ge x.2 y.2 with hlt | hge
        · exact Or.inl (Or.inr ⟨hxy, hlt⟩)
        · refine Or.inr (Or.inr ⟨hxy.symm.trans he, ?_⟩)
          omega

theorem mem_windowIdx {i ci w : Nat} :
    i ∈ windowIdx ci w ↔ ci - w ≤ i ∧ i ≤ ci + w := by
  simp only [windowIdx, List.mem_range'_1]
  omega

theorem mem_contextRaw {store : String → Option StoredChunk} {w : Nat}
    {h : String} {r : ContextChunk} (hr : r ∈ contextRaw store w h) :
    ∃ d ci, parseChunkId h = some (d, ci) ∧ ∃ i ∈ windowIdx ci w,
      r.chunk_id = mkChunkId d i ∧
      r.is_original = (mkChunkId d i == h) ∧
      store (mkChunkId d i) = some r.data := by
  cases hp : parseChunkId h with
  | none => simp [contextRaw, hp] at hr
  | some dci =>
    obtain ⟨d, ci⟩ := dci
    refine ⟨d, ci, rfl, ?_⟩
    simp only [contextRaw, hp, List.mem_filterMap] at hr
    obtain ⟨i, hi, hsome⟩ := hr
    obtain ⟨s, hs, heq⟩ := Option.map_eq_some'.mp hsome
    refine ⟨i, hi, ?_⟩
    rw [← heq]
    exact ⟨rfl, rfl, hs⟩

theorem mem_blockFilter {store : String → Option StoredChunk} {w : Nat}
    {h k : String} {x : ContextChunk}
    (hx : x ∈ (contextRaw store w h).filter fun c => c.chunk_id == k) :
    x.chunk_id = k ∧ store k = some x.data ∧ x.is_original = (k == h) := by
  obtain ⟨hmem, hpred⟩ := List.mem_filter.mp hx
  obtain ⟨d, ci, _, i, _, hid, horig, hst⟩ := mem_contextRaw hmem
  have hk : x.chunk_id = k := by simpa using hpred
  refine ⟨hk, ?_, ?_⟩
  · rw [← hk, hid]; rw [hid] at hk; rw [hk] at hst; rw [hk]; exact hst
  · rw [horig]; rw [hid] at hk; rw [hk]

theorem blockFilter_ne_nil {store : String → Option StoredChunk} {w : Nat}
    {h k : String} (hs : (store k).isSome) :
    ((contextRaw store w h).filter fun c => c.chunk_id == k) ≠ [] ↔
      coversB w h k = true := by
  constructor
  · intro hne
    obtain ⟨x, hx⟩ := List.exists_mem_of_ne_nil _ hne
    obtain ⟨hmem, hpred⟩ := List.mem_filter.mp hx
    obtain ⟨d, ci, hp, i, hi, hid, _, _⟩ := mem_contextRaw hmem
    have hk : x.chunk_id = k := by simpa using hpred
    simp only [coversB, hp, List.any_eq_true]
    exact ⟨i, hi, by rw [← hid, hk]; simp⟩
  · intro hc
    simp only [coversB] at hc
    cases hp : parseChunkId h with
    | none => rw [hp] at hc; simp at hc
    | some dci =>
      obtain ⟨d, ci⟩ := dci
      rw [hp] at hc
      simp only [List.any_eq_true, beq_iff_eq] at hc
      obtain ⟨i, hi, hik⟩ := hc
      obtain ⟨s, hs2⟩ := Option.isSome_iff_exists.mp hs
      apply List.ne_nil_of_mem (a := (⟨k, k == h, s⟩ : ContextChunk))
      rw [List.mem_filter]
      refine ⟨?_, by simp⟩
      simp only [contextRaw, hp, List.mem_filterMap]
      refine ⟨i, hi, ?_⟩
      rw [hik, hs2]
      simp

theorem lastWithKey_gather {store : String → Option StoredChunk} {w : Nat}
    {k : String} {s : StoredChunk} (hs : store k = some s)
    (ids : List String) :
    lastWithKey (gatherContext store ids w) k
      = (lastCover ids w k).map fun h => (⟨k, k == h, s⟩ : ContextChunk) := by
  induction ids using List.reverseRecOn with
  | nil => simp [lastWithKey, gatherContext, lastCover]
  | append_singleton l h ih =>
    have hg : gatherContext store (l ++ [h]) w
        = gatherContext store l w ++ contextRaw store w h := by
      simp [gatherContext]
    rw [lastWithKey, hg, List.filter_append]
    by_cases hb :
        ((contextRaw store w h).filter fun c => c.chunk_id == k) = []
    · rw [hb, List.append_nil]
      have hcov : coversB w h k = false := by
        by_contra hc
        exact ((blockFilter_ne_nil (by simp [hs])).mpr
          (by simpa using hc)) hb
      rw [← lastWithKey, ih]
      simp [lastCover, List.filter_append, hcov]
    · rw [List.getLast?_append_of_ne_nil _ hb]
      have hcov : coversB w h k = true :=
        (blockFilter_ne_nil (by simp [hs])).mp hb
      have hall : ∀ x ∈ (contextRaw store w h).filter
          (fun c => c.chunk_id == k), x = ⟨k, k == h, s⟩ := by
        intro x hx
        obtain ⟨h1, h2, h3⟩ := mem_blockFilter hx
        rw [hs] at h2
        cases x
        simp only [ContextChunk.mk.injEq]
        exact ⟨h1, h3, (Option.some_inj.mp h2).symm⟩
      have hlast : ((contextRaw store w h).filter
          fun c => c.chunk_id == k).getLast? = some ⟨k, k == h, s⟩ := by
        rw [List.getLast?_eq_getLast _ hb]
        exact congrArg some (hall _ (List.getLast_mem hb))
      rw [hlast]
      simp [lastCover, List.filter_append, hcov]

theorem dedupKeys_nodup (l : List ContextChunk) : (dedupKeys l).Nodup := by
  suffices h : ∀ acc : List String, acc.Nodup →
      (l.foldl (fun acc c => if acc.contains c.chunk_id then acc
        else acc ++ [c.chunk_id]) acc).Nodup from h [] List.nodup_nil
  induction l with
  | nil => intro acc ha; simpa using ha
  | cons x xs ih =>
    intro acc ha
    simp only [List.foldl_cons]
    by_cases hc : acc.contains x.chunk_id = true
    · rw [if_pos hc]
      exact ih acc ha
    · rw [if_neg hc]
      apply ih
      have hnm : x.chunk_id ∉ acc := by
        simpa using (Bool.not_eq_true _).mp hc
      simp [List.nodup_append, ha, hnm]

theorem filterMap_sublist_of_id {α : Type} (f : α → Option α) :
    ∀ l : List α, (∀ x ∈ l, f x = Option.none ∨ f x = some x) →
    (l.filterMap f).Sublist l
  | [], _ => by simp
  | x :: xs, h => by
    have hxs := filterMap_sublist_of_id f xs
      (fun y hy => h y (List.mem_cons_of_mem _ hy))
    rcases h x (List.mem_cons_self x xs) with hx | hx
    · simp only [List.filterMap_cons, hx]
      exact hxs.cons x
    · simp only [List.filterMap_cons, hx]
      exact hxs.cons₂ x

theorem lastWithKey_chunk_id {l : List ContextChunk} {k : String}
    {r : ContextChunk} (h : lastWithKey l k = some r) : r.chunk_id = k := by
  have hmem : r ∈ l.filter fun c => c.chunk_id == k :=
    List.mem_of_mem_getLast? h
  simpa using (List.mem_filter.mp hmem).2

theorem mem_of_lastWithKey {l : List ContextChunk} {k : String}
    {r : ContextChunk} (h : lastWithKey l k = some r) : r ∈ l :=
  List.mem_of_mem_filter (List.mem_of_mem_getLast? h)

theorem dictDedup_nodup_keys (l : List ContextChunk) :
    ((dictDedup l).map fun r => r.chunk_id).Nodup := by
  rw [dictDedup, List.map_filterMap]
  refine (dedupKeys_nodup l).sublist ?_
  apply filterMap_sublist_of_id
  intro k _
  cases hk : lastWithKey l k with
  | none => exact Or.inl (by simp)
  | some r => exact Or.inr (by simp [lastWithKey_chunk_id hk])

theorem mem_dictDedup {l : List ContextChunk} {r : ContextChunk}
    (h : r ∈ dictDedup l) : ∃ k, lastWithKey l k = some r := by
  simp only [dictDedup, List.mem_filterMap] at h
  obtain ⟨k, _, hk⟩ := h
  exact ⟨k, hk⟩

/-- C8 as amended (only the original-hit marking changes): every returned
chunk is a stored sibling of some parsed hit within `chunk_index ± w`,
the returned `chunk_id`s contain no duplicates even when windows overlap,
the output is sorted by `(document_id, chunk_index)` ascending, and a
returned chunk is marked as the original hit exactly when it equals the
*last* input `chunk_id` (in input order) whose window contains it — not
merely when its id is one of the input ids, since the dict comprehension
keeps the last record written across overlapping windows. -/
theorem c8_context_expansion (store : String → Option StoredChunk)
    (ids : List String) (w : Nat) :
    (∀ r ∈ getTextbookContext store ids w,
      store r.chunk_id = some r.data ∧
      ∃ h ∈ ids, ∃ d ci, parseChunkId h = some (d, ci) ∧
        ∃ i, ci - w ≤ i ∧ i ≤ ci + w ∧ r.chunk_id = mkChunkId d i) ∧
    ((getTextbookContext store ids w).map fun r => r.chunk_id).Nodup ∧
    (getTextbookContext store ids w).Pairwise
      (fun a b => ctxLater a b = false) ∧
    (∀ r ∈ getTextbookContext store ids w,
      (r.is_original = true ↔
        lastCover ids w r.chunk_id = some r.chunk_id)) := by
  have hout : ∀ r ∈ getTextbookContext store ids w,
      ∃ k, lastWithKey (gatherContext store ids w) k = some r :=
    fun r hr => mem_dictDedup (mem_stSort.mp hr)
  have hstore : ∀ r ∈ getTextbookContext store ids w,
      store r.chunk_id = some r.data ∧
      ∃ h ∈ ids, ∃ d ci, parseChunkId h = some (d, ci) ∧
        ∃ i, ci - w ≤ i ∧ i ≤ ci + w ∧ r.chunk_id = mkChunkId d i := by
    intro r hr
    obtain ⟨k, hk⟩ := hout r hr
    have hrg : r ∈ gatherContext store ids w := mem_of_lastWithKey hk
    rw [gatherContext, List.mem_flatMap] at hrg
    obtain ⟨h, hh, hrc⟩ := hrg
    obtain ⟨d, ci, hp, i, hi, hid, _, hst⟩ := mem_contextRaw hrc
    obtain ⟨hi1, hi2⟩ := mem_windowIdx.mp hi
    exact ⟨by rw [hid]; exact hst, h, hh, d, ci, hp, i, hi1, hi2, hid⟩
  refine ⟨hstore, ?_, ?_, ?_⟩
  · have hperm := (stSort_perm ctxLater
      (dictDedup (gatherContext store ids w))).map fun r => r.chunk_id
    exact hperm.nodup_iff.mpr (dictDedup_nodup_keys _)
  · refine stSort_pairwise ?_ ?_ ?_ _
    · exact fun a b h => h
    · exact fun a b h => keyLtB_asymm h
    · intro a b c hab hbc
      by_contra hc
      have hc2 : keyLtB (ctxKey c) (ctxKey a) = true := by
        simpa [ctxLater] using hc
      rcases keyLtB_cotrans (y := ctxKey b) hc2 with h1 | h1
      · exact absurd h1 (by simpa [ctxLater] using hbc)
      · exact absurd h1 (by simpa [ctxLater] using hab)
  · intro r hr
    obtain ⟨k, hk⟩ := hout r hr
    have hkid : r.chunk_id = k := lastWithKey_chunk_id hk
    have hst : store k = some r.data := by
      have := (hstore r hr).1
      rw [hkid] at this
      exact this
    rw [lastWithKey_gather hst ids] at hk
    obtain ⟨h0, hl0, hf⟩ := Option.map_eq_some'.mp hk
    rw [hkid, hl0]
    constructor
    · intro ho
      rw [← hf] at ho
      have hkh : k = h0 := by simpa using ho
      rw [hkh]
    · intro hlc
      have hhk : h0 = k := Option.some_inj.mp hlc
      rw [← hf]
      simp [hhk]

/-- Witness for the amended C8 at the counterexample inputs: the returned
record for chunk 2 is marked original, and chunk 2 is indeed the last
input hit whose window covers it. -/
theorem c8_context_expansion_witness :
    (ContextChunk.mk "A_chunk_0002" true ⟨"A", 2⟩).is_original = true ↔
      lastCover ["A_chunk_0001", "A_chunk_0002"] 2 "A_chunk_0002"
        = some "A_chunk_0002" :=
  (c8_context_expansion storeC8 ["A_chunk_0001", "A_chunk_0002"] 2).2.2.2
    ⟨"A_chunk_0002", true, ⟨"A", 2⟩⟩ (by decide)

/-! ### Relevance ranker: `backend/legal_services/case_ranking.py`

The regular expressions of this module fall into a fragment where greedy
matching needs no backtracking (every quantified class is disjoint from
the token that follows it, except `\s+` directly before an arbitrary
literal, which gets its own one-token-lookahead matcher), so each pattern
is embedded as a deterministic matcher over `List Char`. -/

/-- Consume one-or-more characters satisfying `p`, greedily (`\d+`, `\s+`,
`\w+` when the following token is disjoint from the class). -/
def chomp1B (p : Char → Bool) (l : List Char) : Option (List Char) :=
  if (l.takeWhile p).isEmpty then Option.none
  else some (l.drop (l.takeWhile p).length)

/-- Consume an exact literal. -/
def chompLit (lit : List Char) (l : List Char) : Option (List Char) :=
  if listStartsWith l lit then some (l.drop lit.length) else Option.none

/-- `\s+` immediately followed by an arbitrary literal (which may itself
begin with whitespace): consume at least one space, then try the literal
after every prefix of the whitespace run — equivalent to the regex's
backtracking for match existence. -/
def spacesThenLit (lit : List Char) : List Char → Option (List Char)
  | [] => Option.none
  | c :: rest =>
    if isPySpace c then
      match chompLit lit rest with
      | some r => some r
      | Option.none => spacesThenLit lit rest
    else Option.none

/-- Head match of `s\s*\d+[a-z]*\s+T` (the leading `\b` is handled by the
caller's scan). -/
def pat1At (T : List Char) (l : List Char) : Bool :=
  match l with
  | 's' :: rest =>
    let r1 := rest.dropWhile isPySpace
    if (r1.takeWhile isPyDigit).isEmpty then false
    else
      let r2 := (r1.drop (r1.takeWhile isPyDigit).length).dropWhile isLowerAZ
      (spacesThenLit T r2).isSome
  | _ => false

/-- Head match of `section\s+\d+[a-z]*\s+T`. -/
def pat2At (T : List Char) (l : List Char) : Bool :=
  ((((chompLit ("section".toList) l).bind (chomp1B isPySpace)).bind
    (chomp1B isPyDigit)).bind
      fun r => spacesThenLit T (r.dropWhile isLowerAZ)).isSome

/-- Head match of `T\s+s\s*\d+[a-z]*` (the trailing `[a-z]*` always
succeeds and is dropped). -/
def pat3At (T : List Char) (l : List Char) : Bool :=
  ((((chompLit T l).bind (chomp1B isPySpace)).bind
    (chompLit ['s'])).bind
      fun r => chomp1B isPyDigit (r.dropWhile isPySpace)).isSome

/-- Head match of `T\s+section\s+\d+[a-z]*`. -/
def pat4At (T : List Char) (l : List Char) : Bool :=
  (((((chompLit T l).bind (chomp1B isPySpace)).bind
    (chompLit ("section".toList))).bind (chomp1B isPySpace)).bind
      (chomp1B isPyDigit)).isSome

/-- `re.search` for a head matcher with no boundary requirement: try every
suffix. -/
def searchAt (pAt : List Char → Bool) : List Char → Bool
  | [] => pAt []
  | c :: rest => pAt (c :: rest) || searchAt pAt rest

/-- `re.search` for `\bs...`: try every suffix whose predecessor is a
non-word character (or the string start). -/
def searchPat1Aux (T : List Char) : Bool → List Char → Bool
  | _, [] => false
  | prevNonWord, c :: rest =>
    (prevNonWord && pat1At T (c :: rest))
      || searchPat1Aux T (!(isPyWord c)) rest

/-- The `exact_match_patterns` loop of `_calculate_statute_match_score`
(lines 250-261): does any of the four exact-section patterns occur in the
text? -/
def exactSectionMatch (T text : List Char) : Bool :=
  searchPat1Aux T true text || searchAt (pat2At T) text
    || searchAt (pat3At T) text || searchAt (pat4At T) text

/-- State-passing consumption for the citation matchers: list remaining
and characters consumed so far. -/
def eat1 (p : Char → Bool) (st : List Char × Nat) :
    Option (List Char × Nat) :=
  if (st.1.takeWhile p).isEmpty then Option.none
  else some (st.1.drop (st.1.takeWhile p).length,
             st.2 + (st.1.takeWhile p).length)

def eatLit (lit : List Char) (st : List Char × Nat) :
    Option (List Char × Nat) :=
  if listStartsWith st.1 lit then some (st.1.drop lit.length, st.2 + lit.length)
  else Option.none

def eatExact (n : Nat) (p : Char → Bool) (st : List Char × Nat) :
    Option (List Char × Nat) :=
  if n ≤ st.1.length ∧ (st.1.take n).all p then
    some (st.1.drop n, st.2 + n)
  else Option.none

/-- Head match of `\[\d{4}\]\s+\w+\s+\d+` returning the matched length. -/
def citMatch1 (l : List Char) : Option Nat :=
  ((((((some (l, 0) >>= eatLit ['[']) >>= eatExact 4 isPyDigit)
    >>= eatLit [']']) >>= eat1 isPySpace) >>= eat1 isPyWord)
    >>= eat1 isPySpace) >>= eat1 isPyDigit |>.map fun st => st.2

/-- Head match of `\[\d{4}\]\s+\d+\s+SLR\s+\d+` returning the matched
length. -/
def citMatch2 (l : List Char) : Option Nat :=
  ((((((((some (l, 0) >>= eatLit ['[']) >>= eatExact 4 isPyDigit)
    >>= eatLit [']']) >>= eat1 isPySpace) >>= eat1 isPyDigit)
    >>= eat1 isPySpace) >>= eatLit ("SLR".toList)) >>= eat1 isPySpace)
    >>= eat1 isPyDigit |>.map fun st => st.2

/-- Head match of `\(\d{4}\)\s+\d+\s+SLR\s+\d+` returning the matched
length. -/
def citMatch3 (l : List Char) : Option Nat :=
  ((((((((some (l, 0) >>= eatLit ['(']) >>= eatExact 4 isPyDigit)
    >>= eatLit [')']) >>= eat1 isPySpace) >>= eat1 isPyDigit)
    >>= eat1 isPySpace) >>= eatLit ("SLR".toList)) >>= eat1 isPySpace)
    >>= eat1 isPyDigit |>.map fun st => st.2

/-- `re.findall`: scan left to right, emit each non-overlapping match and
resume after it.  The skip counter carries the remaining characters of the
current match (every matcher here consumes at least one character, the
opening bracket, so skipping `n - 1` of the tail skips `n` of the whole). -/
def findAllAux (m : List Char → Option Nat) : Nat → List Char → List (List Char)
  | _, [] => []
  | skip + 1, _ :: rest => findAllAux m skip rest
  | 0, c :: rest =>
    match m (c :: rest) with
    | some n => ((c :: rest).take n) :: findAllAux m (n - 1) rest
    | Option.none => findAllAux m 0 rest

def findAllMatches (m : List Char → Option Nat) (l : List Char) :
    List (List Char) :=
  findAllAux m 0 l

/-- `_extract_case_citations` (lines 406-423): all matches of the three
citation patterns, de-duplicated.  (`list(set(...))` has unspecified
order; only emptiness and distinct count are consumed downstream, so the
first-occurrence order of `List.dedup` is used.) -/
def extractCaseCitations (text : List Char) : List (List Char) :=
  if text = [] then []
  else (findAllMatches citMatch1 text ++ findAllMatches citMatch2 text
    ++ findAllMatches citMatch3 text).dedup

/-- The fixed statute vocabulary of `_extract_statute_references`
(lines 388-398); each pattern is a literal, so `re.search` is a substring
test. -/
def statuteVocab : List String :=
  ["personal data protection act", "companies act", "partnership act",
   "employment act", "trade marks act", "copyright act",
   "criminal procedure code", "penal code", "evidence act"]

/-- `_extract_statute_references` (lines 379-404).  The source title-cases
the matched pattern strings and de-duplicates via `set` (patterns are
distinct, order unspecified); downstream only truthiness is consumed, so
the matched patterns are kept verbatim in vocabulary order. -/
def extractStatuteReferences (text : List Char) : List (List Char) :=
  if text = [] then []
  else (statuteVocab.filter fun p => listHasSub (pyLower text) p.toList).map
    String.toList

/-- The `legal_concepts` keyword table (lines 77-84), in insertion
order. -/
def legalConceptsTable : List (String × List String) :=
  [("contract", ["contract", "agreement", "breach", "consideration",
                 "offer", "acceptance"]),
   ("tort", ["negligence", "duty of care", "damages", "liability", "tort"]),
   ("privacy", ["personal data", "privacy", "data protection", "consent",
                "disclosure"]),
   ("employment", ["employment", "wrongful dismissal", "discrimination",
                   "harassment"]),
   ("corporate", ["directors", "shareholders", "company",
                  "corporate governance"]),
   ("property", ["property", "land", "tenancy", "lease", "title"])]

/-- `_extract_legal_concepts` (lines 425-439): flag each category at most
once when any of its keywords occurs in the lowercased text. -/
def extractLegalConcepts (text : List Char) : List String :=
  if text = [] then []
  else (legalConceptsTable.filter fun kv =>
    kv.2.any fun kw => listHasSub (pyLower text) kw.toList).map
      fun kv => kv.1

/-- The five sub-scores plus the weighted final score
(`RankingScores` dataclass, lines 33-41). -/
structure RankingScores where
  statute_match : ℚ
  keyword_similarity : ℚ
  court_hierarchy : ℚ
  recency : ℚ
  citation_network : ℚ
  final_score : ℚ
deriving DecidableEq, Repr

/-- The `ranking_metadata` block `rank_cases` attaches to each scored
candidate. -/
structure RankingMeta where
  statute_references : List (List Char)
  extracted_court : Option String
  extracted_year : Option String
  legal_concepts : List String
deriving DecidableEq, Repr

/-- An input candidate dict.  `full_content` carries the `.get(...)`
default `''` (a present-but-`None` value behaves identically through
`content or snippet`); `relevance_score` is `none` when the key is
absent; `scoring_breakdown`/`ranking_metadata` are the keys `rank_cases`
adds on success, absent on input. -/
structure Case where
  title : String
  court : Option String
  case_year : Option String
  full_content : String
  url : String
  snippet : String
  relevance_score : Option ℚ
  scoring_breakdown : Option RankingScores
  ranking_metadata : Option RankingMeta
deriving DecidableEq, Repr

/-- `CaseMetadata` (lines 17-31) as populated by
`_extract_case_metadata`. -/
structure CaseMetadata where
  title : String
  court : Option String
  year : Option String
  content : String
  url : String
  snippet : String
  original_score : ℚ
  statute_references : List (List Char)
  case_citations : List (List Char)
  legal_concepts : List String
deriving DecidableEq, Repr

/-- `f"(title) (content or snippet)"`. -/
def caseText (title content snippet : String) : List Char :=
  title.toList ++ [' ']
    ++ (if content = "" then snippet.toList else content.toList)

/-- `_extract_case_metadata` (lines 169-187). -/
def extractCaseMetadata (c : Case) : CaseMetadata :=
  let text := caseText c.title c.full_content c.snippet
  { title := c.title
    court := c.court
    year := c.case_year
    content := c.full_content
    url := c.url
    snippet := c.snippet
    original_score := c.relevance_score.getD 0
    statute_references := extractStatuteReferences text
    case_citations := extractCaseCitations text
    legal_concepts := extractLegalConcepts text }

/-- `_calculate_statute_match_score` (lines 230-268): 0 when there are no
targets or no extracted statute references; otherwise 1.0 per target with
an exact-section pattern, else 0.5 per bare substring mention, summed,
divided by the target count and capped at 1.0. -/
def calcStatuteMatchScore (m : CaseMetadata) (targets : List String) : ℚ :=
  if targets = [] ∨ m.statute_references = [] then 0
  else
    min
      ((targets.foldl
        (fun acc t =>
          if exactSectionMatch (pyLower t.toList)
              (pyLower (caseText m.title m.content m.snippet)) then acc + 1
          else if listHasSub (pyLower (caseText m.title m.content m.snippet))
              (pyLower t.toList) then acc + 1/2
          else acc) 0) / targets.length) 1

/-- Python `str.split()` with no argument: whitespace-run split, no empty
tokens.  The accumulator holds the current token reversed. -/
def pySplitWsAux (cur : List Char) : List Char → List (List Char)
  | [] => if cur.isEmpty then [] else [cur.reverse]
  | c :: rest =>
    if isPySpace c then
      if cur.isEmpty then pySplitWsAux [] rest
      else cur.reverse :: pySplitWsAux [] rest
    else pySplitWsAux (c :: cur) rest

def pySplitWs (l : List Char) : List (List Char) :=
  pySplitWsAux [] l

/-- `_calculate_keyword_similarity_fallback` (lines 282-305): fraction of
query terms present (weight 0.5) plus fraction of query facts present
(weight 0.5), capped at 1. -/
def calcKeywordSimilarity (m : CaseMetadata) (query : String)
    (queryFacts : List String) : ℚ :=
  let text := pyLower (caseText m.title m.content m.snippet)
  let qterms := pySplitWs (pyLower query.toList)
  let s1 : ℚ :=
    if qterms = [] then 0
    else ((qterms.filter fun t => listHasSub text t).length : ℚ)
      / qterms.length * (1/2)
  let s2 : ℚ :=
    if queryFacts = [] then 0
    else ((queryFacts.filter fun f =>
        listHasSub text (pyLower f.toList)).length : ℚ)
      / queryFacts.length * (1/2)
  min (s1 + s2) 1

/-- The `court_hierarchy` table (lines 63-74), in insertion order,
with the float tier values as exact rationals. -/
def courtHierarchyTable : List (String × ℚ) :=
  [("court of appeal", 1), ("high court", 4/5), ("state courts", 3/5),
   ("district court", 3/5), ("magistrate court", 2/5), ("family court", 1/2),
   ("youth court", 2/5), ("coroner court", 2/5), ("tribunal", 3/10),
   ("unknown", 1/5)]

/-- `_calculate_court_hierarchy_score` (lines 307-322): first table entry
whose name occurs in the lowercased court string; the `unknown` tier 0.2
when the court is missing, empty (falsy), or unrecognised. -/
def calcCourtHierarchyScore (m : CaseMetadata) : ℚ :=
  match m.court with
  | Option.none => 1/5
  | some court =>
    if court = "" then 1/5
    else
      match courtHierarchyTable.find? (fun kv =>
          listHasSub (pyLower court.toList) kv.1.toList) with
      | some kv => kv.2
      | Option.none => 1/5

/-- Python `int(str)` for the year field: optional surrounding whitespace,
optional sign, decimal digits; `none` is the `ValueError` branch. -/
def parsePyInt (s : String) : Option Int :=
  let l := ((s.toList.dropWhile isPySpace).reverse.dropWhile
    isPySpace).reverse
  match l with
  | '-' :: ds => (parseNatDigits ds).map fun n => -(n : Int)
  | '+' :: ds => (parseNatDigits ds).map fun n => (n : Int)
  | ds => (parseNatDigits ds).map fun n => (n : Int)

/-- `_calculate_recency_score` (lines 324-352), parameterised by
`datetime.now().year`. -/
def calcRecencyScore (currentYear : Int) (m : CaseMetadata) : ℚ :=
  match m.year with
  | Option.none => 0
  | some y =>
    if y = "" then 0
    else
      match parsePyInt y with
      | Option.none => 0
      | some cy =>
        let yearsAgo := currentYear - cy
        if yearsAgo ≤ 1 then 1
        else if yearsAgo ≤ 3 then 4/5
        else if yearsAgo ≤ 5 then 3/5
        else if yearsAgo ≤ 10 then 2/5
        else 1/5

/-- `_calculate_citation_network_score` (lines 354-377): step function of
the distinct-citation count. -/
def calcCitationNetworkScore (m : CaseMetadata) : ℚ :=
  if m.case_citations = [] then 0
  else
    if m.case_citations.length ≥ 10 then 1
    else if m.case_citations.length ≥ 5 then 4/5
    else if m.case_citations.length ≥ 2 then 3/5
    else if m.case_citations.length ≥ 1 then 2/5
    else 0

/-- `_calculate_comprehensive_score` (lines 189-228), with the weight
dict 0.4 / 0.3 / 0.15 / 0.1 / 0.05 as exact rationals and the current
year a parameter. -/
def calcComprehensiveScore (currentYear : Int) (m : CaseMetadata)
    (query : String) (targets facts : List String) : RankingScores :=
  let s1 := calcStatuteMatchScore m targets
  let s2 := calcKeywordSimilarity m query facts
  let s3 := calcCourtHierarchyScore m
  let s4 := calcRecencyScore currentYear m
  let s5 := calcCitationNetworkScore m
  { statute_match := s1
    keyword_similarity := s2
    court_hierarchy := s3
    recency := s4
    citation_network := s5
    final_score := (2/5) * s1 + (3/10) * s2 + (3/20) * s3
      + (1/10) * s4 + (1/20) * s5 }

/-- The `enhanced_case.update(...)` block of `rank_cases` (lines 131-147)
for a successfully scored candidate. -/
def applyScores (c : Case) (m : CaseMetadata) (s : RankingScores) : Case :=
  { c with
    relevance_score := some s.final_score
    scoring_breakdown := some s
    ranking_metadata :=
      some ⟨m.statute_references, m.court, m.year, m.legal_concepts⟩ }

/-- The per-candidate body of `rank_cases`'s scoring loop (lines 124-156):
score under the per-candidate `try`, keeping the candidate with its
pre-existing (default 0.0) score when scoring raises. -/
def scoreStep (scoreO : CaseMetadata → Except String RankingScores)
    (cm : Case × CaseMetadata) : Case :=
  match scoreO cm.2 with
  | Except.ok s => applyScores cm.1 cm.2 s
  | Except.error _ =>
    { cm.1 with relevance_score := some (cm.1.relevance_score.getD 0) }

/-- The comparison of `ranked_cases.sort(key=lambda x:
x.get('relevance_score', 0.0), reverse=True)`. -/
def scoreLater (x y : Case) : Bool :=
  decide (x.relevance_score.getD 0 < y.relevance_score.getD 0)

/-- The list comprehension
`[self._extract_case_metadata(case) for case in cases]` with exception
semantics: the first raising element aborts the whole comprehension. -/
def mapExtract (f : Case → Except String CaseMetadata) :
    List Case → Except String (List CaseMetadata)
  | [] => Except.ok []
  | c :: cs =>
    match f c with
    | Except.error e => Except.error e
    | Except.ok m =>
      match mapExtract f cs with
      | Except.error e => Except.error e
      | Except.ok ms => Except.ok (m :: ms)

/-- `rank_cases` (lines 97-167) with the two fallible stages explicit:
`extractO` models `_extract_case_metadata` (run for all candidates in a
list comprehension *outside* the per-candidate `try`, so its first
exception aborts to the outer handler, which returns the input
unchanged), `scoreO` models `_calculate_comprehensive_score` (run under
the per-candidate `try`). -/
def rankCasesWith (extractO : Case → Except String CaseMetadata)
    (scoreO : CaseMetadata → Except String RankingScores)
    (cases : List Case) : List Case :=
  match mapExtract extractO cases with
  | Except.error _ => cases
  | Except.ok metas =>
    stSort scoreLater ((cases.zip metas).map (scoreStep scoreO))

/-- `rank_cases` with the real (non-raising, purely computational)
extraction and scoring stages. -/
def rankCases (currentYear : Int) (query : String)
    (targets facts : List String) (cases : List Case) : List Case :=
  rankCasesWith (fun c => Except.ok (extractCaseMetadata c))
    (fun m => Except.ok (calcComprehensiveScore currentYear m query
      targets facts))
    cases

theorem mapExtract_ok (f : Case → CaseMetadata) (l : List Case) :
    mapExtract (fun c => Except.ok (f c)) l = Except.ok (l.map f) := by
  induction l with
  | nil => rfl
  | cons c cs ih => simp [mapExtract, ih]

theorem mapExtract_length {f : Case → Except String CaseMetadata}
    {l : List Case} {metas : List CaseMetadata}
    (h : mapExtract f l = Except.ok metas) : metas.length = l.length := by
  induction l generalizing metas with
  | nil =>
    simp only [mapExtract, Except.ok.injEq] at h
    rw [← h]
    rfl
  | cons c cs ih =>
    simp only [mapExtract] at h
    cases hc : f c with
    | error e => rw [hc] at h; exact absurd h (by simp)
    | ok m =>
      rw [hc] at h
      cases hcs : mapExtract f cs with
      | error e => rw [hcs] at h; exact absurd h (by simp)
      | ok ms =>
        rw [hcs] at h
        simp only [Except.ok.injEq] at h
        rw [← h]
        simp [ih hcs]

theorem zip_map_map (f : Case → CaseMetadata) (g : Case × CaseMetadata → Case) :
    ∀ l : List Case, (l.zip (l.map f)).map g = l.map fun c => g (c, f c)
  | [] => rfl
  | c :: cs => by simp [zip_map_map f g cs]

theorem rankCases_eq (year : Int) (query : String)
    (targets facts : List String) (cases : List Case) :
    rankCases year query targets facts cases
      = stSort scoreLater (cases.map fun c =>
          applyScores c (extractCaseMetadata c)
            (calcComprehensiveScore year (extractCaseMetadata c) query
              targets facts)) := by
  unfold rankCases rankCasesWith
  simp only [mapExtract_ok]
  rw [zip_map_map]
  rfl

/-- C5: every ranked candidate's annotated score is the weighted sum
`0.40·statute_match + 0.30·keyword_similarity + 0.15·court_hierarchy +
0.10·recency + 0.05·citation_network` of its five computed sub-scores:
the attached `relevance_score` equals the breakdown's `final_score`, and
that `final_score` is exactly the weighted sum of the breakdown's
sub-score fields. -/
theorem c5_final_score_weighted_sum (year : Int) (query : String)
    (targets facts : List String) (cases : List Case) :
    ∀ r ∈ rankCases year query targets facts cases,
      ∀ s, r.scoring_breakdown = some s →
        r.relevance_score = some s.final_score ∧
        s.final_score = (2/5) * s.statute_match
          + (3/10) * s.keyword_similarity + (3/20) * s.court_hierarchy
          + (1/10) * s.recency + (1/20) * s.citation_network := by
  intro r hr s hs
  rw [rankCases_eq] at hr
  have hr2 := mem_stSort.mp hr
  simp only [List.mem_map] at hr2
  obtain ⟨c, _, heq⟩ := hr2
  rw [← heq] at hs ⊢
  simp only [applyScores] at hs ⊢
  have hss := Option.some_inj.mp hs
  rw [← hss]
  exact ⟨rfl, rfl⟩

/-- Concrete candidate for the C5 witness. -/
def caseC5 : Case :=
  ⟨"", Option.none, Option.none, "", "", "", Option.none, Option.none,
   Option.none⟩

def metaC5 : CaseMetadata := extractCaseMetadata caseC5

def scoresC5 : RankingScores := calcComprehensiveScore 2026 metaC5 "" [] []

/-- Witness for C5 at a concrete one-candidate ranking. -/
theorem c5_final_score_weighted_sum_witness :
    (applyScores caseC5 metaC5 scoresC5).relevance_score
        = some scoresC5.final_score ∧
      scoresC5.final_score = (2/5) * scoresC5.statute_match
        + (3/10) * scoresC5.keyword_similarity
        + (3/20) * scoresC5.court_hierarchy + (1/10) * scoresC5.recency
        + (1/20) * scoresC5.citation_network :=
  c5_final_score_weighted_sum 2026 "" [] [] [caseC5]
    (applyScores caseC5 metaC5 scoresC5)
    (by rw [rankCases_eq]; exact List.mem_singleton.mpr rfl)
    scoresC5 rfl

/-- C6: ranking sorts by final score descending with a stable sort —
the output is pairwise non-increasing in `relevance_score`, has exactly
one record per input candidate, and for every score value the records
carrying it appear in the same relative order as the input candidates
they came from. -/
theorem c6_rank_sorted_stable (year : Int) (query : String)
    (targets facts : List String) (cases : List Case) :
    (rankCases year query targets facts cases).Pairwise
      (fun a b => b.relevance_score.getD 0 ≤ a.relevance_score.getD 0) ∧
    (rankCases year query targets facts cases).length = cases.length ∧
    ∀ s : ℚ,
      (rankCases year query targets facts cases).filter
          (fun c => c.relevance_score.getD 0 = s)
        = (cases.map fun c => applyScores c (extractCaseMetadata c)
            (calcComprehensiveScore year (extractCaseMetadata c) query
              targets facts)).filter
          (fun c => c.relevance_score.getD 0 = s) := by
  rw [rankCases_eq]
  refine ⟨?_, ?_, ?_⟩
  · refine stSort_pairwise ?_ ?_ ?_ _
    · intro a b h
      exact le_of_not_lt (by simpa [scoreLater] using h)
    · intro a b h
      exact le_of_lt (by simpa [scoreLater] using h)
    · intro a b c hab hbc
      exact le_trans hbc (le_of_not_lt (by simpa [scoreLater] using hab))
  · rw [stSort_length, List.length_map]
  · intro s
    exact stSort_filter_stable
      (fun a b h => ne_of_lt (by simpa [scoreLater] using h)) _ s

/-- Per-target contribution of the statute-match loop: 1.0 for an
exact-section pattern, else 0.5 for a bare mention, else 0. -/
def statuteContrib (text : List Char) (t : String) : ℚ :=
  if exactSectionMatch (pyLower t.toList) text then 1
  else if listHasSub text (pyLower t.toList) then 1/2
  else 0

/-- The C7 claim's formula, stated from the spec's words: sum the
per-target contributions, divide by the target count, cap at 1.0 —
with no precondition on extracted statute references. -/
def specStatuteMatchScore (m : CaseMetadata) (targets : List String) : ℚ :=
  min ((targets.map (statuteContrib
      (pyLower (caseText m.title m.content m.snippet)))).sum
    / targets.length) 1

theorem foldl_add_eq_sum (g : String → ℚ) :
    ∀ (l : List String) (init : ℚ),
      l.foldl (fun acc t => acc + g t) init = init + (l.map g).sum
  | [], init => by simp
  | t :: ts, init => by
    simp only [List.foldl_cons, List.map_cons, List.sum_cons]
    rw [foldl_add_eq_sum g ts (init + g t)]
    ring

/-- C7 as amended: for a non-empty target list the statute-match
sub-score equals the claim's capped, normalized sum *provided the
candidate text contains at least one statute from the fixed extraction
vocabulary*; when `statute_references` is empty the code returns 0
regardless of target mentions. -/
theorem c7_statute_match_gate (m : CaseMetadata) (targets : List String)
    (h : targets ≠ []) :
    calcStatuteMatchScore m targets
      = if m.statute_references = [] then 0
        else specStatuteMatchScore m targets := by
  by_cases hr : m.statute_references = []
  · simp [calcStatuteMatchScore, hr]
  · rw [if_neg hr]
    have hcond : ¬ (targets = [] ∨ m.statute_references = []) := by
      simp [h, hr]
    have hfun : (fun (acc : ℚ) t =>
        if exactSectionMatch (pyLower t.toList)
            (pyLower (caseText m.title m.content m.snippet)) then acc + 1
        else if listHasSub (pyLower (caseText m.title m.content m.snippet))
            (pyLower t.toList) then acc + 1/2
        else acc)
      = (fun (acc : ℚ) t => acc
          + statuteContrib (pyLower (caseText m.title m.content m.snippet)) t) := by
      funext acc t
      simp only [statuteContrib]
      split_ifs <;> ring
    rw [calcStatuteMatchScore, if_neg hcond, specStatuteMatchScore, hfun,
      foldl_add_eq_sum]
    rw [zero_add]

/-- Concrete candidate for the C7 counterexample: the target statute is
a bare substring of the text, but none of the nine extraction-vocabulary
statutes occurs, so `statute_references` is empty. -/
def caseC7 : Case :=
  ⟨"A", Option.none, Option.none, "the misrepresentation act applies",
   "", "", Option.none, Option.none, Option.none⟩

/-- C7 (refuted as stated): with target `"misrepresentation act"` the
code returns 0 (the statute-references gate fires) while the claim's
formula gives 0.5 for the bare mention. -/
theorem c7_statute_match_counterexample :
    calcStatuteMatchScore (extractCaseMetadata caseC7)
        ["misrepresentation act"]
      ≠ specStatuteMatchScore (extractCaseMetadata caseC7)
        ["misrepresentation act"] := by
  have hrefs : (extractCaseMetadata caseC7).statute_references = [] := by
    decide
  have h1 : calcStatuteMatchScore (extractCaseMetadata caseC7)
      ["misrepresentation act"] = 0 := by
    simp [calcStatuteMatchScore, hrefs]
  have he : exactSectionMatch (pyLower ("misrepresentation act".toList))
      (pyLower (caseText "A" "the misrepresentation act applies" ""))
      = false := by decide
  have hsub : listHasSub
      (pyLower (caseText "A" "the misrepresentation act applies" ""))
      (pyLower ("misrepresentation act".toList)) = true := by decide
  have h2 : specStatuteMatchScore (extractCaseMetadata caseC7)
      ["misrepresentation act"] = 1/2 := by
    simp only [specStatuteMatchScore, extractCaseMetadata, caseC7,
      statuteContrib, List.map_cons, List.map_nil, List.sum_cons,
      List.sum_nil, List.length_cons, List.length_nil]
    rw [he, hsub]
    norm_num
  rw [h1, h2]
  norm_num

/-- Witness for the amended C7 at the counterexample inputs. -/
theorem c7_statute_match_gate_witness :
    calcStatuteMatchScore (extractCaseMetadata caseC7)
        ["misrepresentation act"]
      = if (extractCaseMetadata caseC7).statute_references = [] then 0
        else specStatuteMatchScore (extractCaseMetadata caseC7)
          ["misrepresentation act"] :=
  c7_statute_match_gate _ _ (by decide)

/-- C9 as amended: when feature extraction succeeds for the whole batch,
ranking returns exactly one record per input candidate — a candidate
whose scoring raises is kept with its pre-existing (default 0.0)
relevance score instead of being dropped, and the batch is still ranked
(sorted descending); but an exception in feature extraction (run for the
whole batch by a list comprehension outside the per-candidate guard)
aborts ranking and returns the input list unchanged, leaving every
candidate unscored. -/
theorem c9_per_candidate_degradation
    (eo : Case → Except String CaseMetadata)
    (so : CaseMetadata → Except String RankingScores)
    (cases : List Case) :
    (∀ e, mapExtract eo cases = Except.error e →
      rankCasesWith eo so cases = cases) ∧
    (∀ metas, mapExtract eo cases = Except.ok metas →
      (rankCasesWith eo so cases).length = cases.length ∧
      (rankCasesWith eo so cases).Perm
        ((cases.zip metas).map (scoreStep so)) ∧
      (∀ cm ∈ cases.zip metas, ∀ e2, so cm.2 = Except.error e2 →
        ({ cm.1 with
             relevance_score := some (cm.1.relevance_score.getD 0) } : Case)
          ∈ rankCasesWith eo so cases) ∧
      (rankCasesWith eo so cases).Pairwise
        (fun a b =>
          b.relevance_score.getD 0 ≤ a.relevance_score.getD 0)) := by
  constructor
  · intro e he
    simp [rankCasesWith, he]
  · intro metas hm
    have hlen := mapExtract_length hm
    simp only [rankCasesWith, hm]
    refine ⟨?_, stSort_perm _ _, ?_, ?_⟩
    · rw [stSort_length, List.length_map, List.length_zip, hlen, min_self]
    · intro cm hcm e2 he2
      apply mem_stSort.mpr
      apply List.mem_map.mpr
      refine ⟨cm, hcm, ?_⟩
      simp [scoreStep, he2]
    · refine stSort_pairwise ?_ ?_ ?_ _
      · intro a b h
        exact le_of_not_lt (by simpa [scoreLater] using h)
      · intro a b h
        exact le_of_lt (by simpa [scoreLater] using h)
      · intro a b c hab hbc
        exact le_trans hbc (le_of_not_lt (by simpa [scoreLater] using hab))

/-- C9 counterexample fixtures: `caseBad` makes extraction raise,
`caseGood` would score 0.12 via its High Court tier. -/
def caseBad : Case :=
  ⟨"bad", Option.none, Option.none, "", "", "", Option.none, Option.none,
   Option.none⟩

def caseGood : Case :=
  ⟨"good", some "High Court", Option.none, "", "", "", Option.none,
   Option.none, Option.none⟩

/-- Extraction oracle raising on `caseBad` only. -/
def extractC9 : Case → Except String CaseMetadata := fun c =>
  if c.title = "bad" then Except.error "metadata extraction raised"
  else Except.ok (extractCaseMetadata c)

/-- The real (non-raising) scoring stage at a fixed query. -/
def scoreC9 : CaseMetadata → Except String RankingScores := fun m =>
  Except.ok (calcComprehensiveScore 2026 m "q" [] [])

/-- C9 (refuted as stated): when feature extraction raises for one
candidate, the other candidates are *not* still scored and ranked — the
whole input list comes back unchanged, and in particular `caseGood`'s
scored record is absent from the output. -/
theorem c9_extraction_abort_counterexample :
    rankCasesWith extractC9 scoreC9 [caseBad, caseGood]
        = [caseBad, caseGood] ∧
    applyScores caseGood (extractCaseMetadata caseGood)
        (calcComprehensiveScore 2026 (extractCaseMetadata caseGood) "q" [] [])
      ∉ rankCasesWith extractC9 scoreC9 [caseBad, caseGood] := by
  have h1 : rankCasesWith extractC9 scoreC9 [caseBad, caseGood]
      = [caseBad, caseGood] := rfl
  refine ⟨h1, ?_⟩
  rw [h1]
  decide

/-- Witness for the amended C9: a raising extraction returns the input
unchanged, and a clean batch keeps one record per candidate. -/
theorem c9_per_candidate_degradation_witness :
    rankCasesWith extractC9 scoreC9 [caseBad] = [caseBad] ∧
    (rankCasesWith extractC9 scoreC9 [caseGood]).length
      = ([caseGood] : List Case).length :=
  ⟨(c9_per_candidate_degradation extractC9 scoreC9 [caseBad]).1
      "metadata extraction raised" rfl,
   ((c9_per_candidate_degradation extractC9 scoreC9 [caseGood]).2
      [extractCaseMetadata caseGood] rfl).1⟩

end HackTheLaw
